import Mathlib

/-!
Verification of the VCVMCP in-process publish/subscribe broker.

This file gives a shallow embedding of the core data structures and
operations of the repository:

* `RingBuffer` embeds the SPSC ring buffer of
  `include/mcp/MCPRingBuffer.h` (the field names `m_capacity`,
  `m_buffer`, `m_head`, `m_tail` mirror the C++ members; the backing
  `std::vector<T>` of length `capacity + 1` is modelled as a total
  function `Nat → α`, indexed only below `m_capacity`).
* `registerContext`, `unregisterContext`, `subscribe`, `unsubscribe`,
  `unsubscribeAll`, `getAvailableTopics`, `findProviders`, `publish`
  and `deliverMessage` embed the corresponding member functions of
  `src/mcp/MCPBroker.cpp`.  Weak handles are modelled as numeric
  identities together with a liveness map `live : Handle → Bool`
  supplied per call: `weak_ptr::lock()` succeeds exactly on the
  handles that are live at that moment, and `weak_ptr::expired()`
  holds exactly on the others.
-/

/-! ## SPSC ring buffer (include/mcp/MCPRingBuffer.h) -/

structure RingBuffer (α : Type) where
  m_capacity : Nat
  m_buffer : Nat → α
  m_head : Nat
  m_tail : Nat

/-- Constructor `RingBuffer(size_t capacity)` : the internal array has length
`capacity + 1`, `m_capacity` is set to `capacity + 1`, and `clear()`
sets both indices to `0`.  The array slots start default-initialised
(`d` plays the role of the default-constructed `T`). -/
def RingBuffer.new (capacity : Nat) (d : α) : RingBuffer α :=
  { m_capacity := capacity + 1
    m_buffer := fun _ => d
    m_head := 0
    m_tail := 0 }

/-- Method `push(const T& value)` : the local `next_head` is
`(head + 1) % m_capacity`; the push fails iff `next_head == tail`,
otherwise it writes the value at index `head` and stores `next_head`
into `m_head`. -/
def RingBuffer.push (rb : RingBuffer α) (value : α) : RingBuffer α × Bool :=
  if (rb.m_head + 1) % rb.m_capacity = rb.m_tail then
    (rb, false)
  else
    ({ rb with
        m_buffer := fun i => if i = rb.m_head then value else rb.m_buffer i
        m_head := (rb.m_head + 1) % rb.m_capacity }, true)

/-- Method `pop(T& value)` : fails iff `tail == head`, otherwise reads the value
at index `tail` and stores `(tail + 1) % m_capacity` into `m_tail`. -/
def RingBuffer.pop (rb : RingBuffer α) : RingBuffer α × Option α :=
  if rb.m_tail = rb.m_head then
    (rb, none)
  else
    ({ rb with m_tail := (rb.m_tail + 1) % rb.m_capacity },
      some (rb.m_buffer rb.m_tail))

/-- Method `empty()` : `head == tail`. -/
def RingBuffer.empty (rb : RingBuffer α) : Bool :=
  rb.m_head == rb.m_tail

/-- Method `full()` : `(head + 1) % m_capacity == tail`. -/
def RingBuffer.full (rb : RingBuffer α) : Bool :=
  (rb.m_head + 1) % rb.m_capacity == rb.m_tail

/-- Method `size()` : `head - tail` when `head >= tail`, else
`m_capacity + head - tail`. -/
def RingBuffer.size (rb : RingBuffer α) : Nat :=
  if rb.m_tail ≤ rb.m_head then rb.m_head - rb.m_tail
  else rb.m_capacity + rb.m_head - rb.m_tail

/-- Well-formedness of a ring-buffer state: the capacity is positive and
both indices are in range.  Holds after construction and is preserved by
`push` and `pop`. -/
def RingBuffer.WF (rb : RingBuffer α) : Prop :=
  0 < rb.m_capacity ∧ rb.m_head < rb.m_capacity ∧ rb.m_tail < rb.m_capacity

/-- Number of occupied slots, computed from the indices alone. -/
def RingBuffer.occupied (rb : RingBuffer α) : Nat :=
  (rb.m_head + rb.m_capacity - rb.m_tail) % rb.m_capacity

/-- The FIFO contents of the buffer: the slots from `m_tail` (oldest)
up to but excluding `m_head` (next write position), in ring order. -/
def RingBuffer.contents (rb : RingBuffer α) : List α :=
  (List.range rb.occupied).map fun i => rb.m_buffer ((rb.m_tail + i) % rb.m_capacity)

/-- One producer/consumer operation on a ring buffer. -/
inductive RBOp (α : Type) where
  | push (v : α)
  | pop

/-- Run a sequence of operations, collecting the successfully pushed
values and the successfully popped values, in order. -/
def runOps : List (RBOp α) → RingBuffer α → RingBuffer α × (List α × List α)
  | [], rb => (rb, ([], []))
  | RBOp.push v :: rest, rb =>
      let s := rb.push v
      let r := runOps rest s.1
      (r.1, ((if s.2 then [v] else []) ++ r.2.1, r.2.2))
  | RBOp.pop :: rest, rb =>
      let s := rb.pop
      let r := runOps rest s.1
      (r.1, (r.2.1, s.2.toList ++ r.2.2))

/-! ## Broker registry and dispatch (src/mcp/MCPBroker.cpp)

Weak handles are numeric identities; `live : Handle → Bool` is the
environment's strong-reference state at the moment of a call:
`weak_ptr::lock()` on a stored handle `w` succeeds iff `live w`, and
`weak_ptr::expired()` holds iff `¬ live w`.  A `shared_ptr` argument is
passed as `Option Handle` (`none` is the null pointer).  The
`unordered_map`s are association lists with unique keys. -/

abbrev Topic := String

abbrev Handle := Nat

abbrev Bucket := List Handle

abbrev Registry := List (Topic × Bucket)

/-- Lookup `unordered_map::find` : the bucket stored under a topic key. -/
def lookupTopic : Registry → Topic → Option Bucket
  | [], _ => none
  | e :: rest, t => if e.1 = t then some e.2 else lookupTopic rest t

/-- Store a bucket under a topic key, replacing the existing entry or
appending a fresh one (the effect of `map[topic] = bucket`). -/
def setTopic : Registry → Topic → Bucket → Registry
  | [], t, b => [(t, b)]
  | e :: rest, t, b => if e.1 = t then (t, b) :: rest else e :: setTopic rest t b

/-- Erasure `unordered_map::erase(key)` : drop the entry of a topic key. -/
def eraseTopic : Registry → Topic → Registry
  | [], _ => []
  | e :: rest, t => if e.1 = t then rest else e :: eraseTopic rest t

/-- Member `MCPBroker::registerContext` : rejects an empty topic or null
provider; otherwise walks the topic's bucket (`m_topicRegistry[topic]`,
created empty when absent) and returns false if some stored weak handle
locks to the given provider; otherwise appends the provider. -/
def registerContext (live : Handle → Bool) (topic : Topic)
    (provider : Option Handle) (reg : Registry) : Registry × Bool :=
  match provider with
  | none => (reg, false)
  | some p =>
    if topic.isEmpty then (reg, false)
    else
      let providers := (lookupTopic reg topic).getD []
      if providers.any (fun w => live w && w == p) then (reg, false)
      else (setTopic reg topic (providers ++ [p]), true)

/-- Member `MCPBroker::unregisterContext` : rejects an empty topic or null
provider; otherwise, when the topic is present, removes from its bucket
every entry that is expired or equal to the given provider
(`remove_if` with `!existingProvider || existingProvider == provider`),
returns true iff at least one entry was removed, and erases the topic
when its bucket becomes empty. -/
def unregisterContext (live : Handle → Bool) (topic : Topic)
    (provider : Option Handle) (reg : Registry) : Registry × Bool :=
  match provider with
  | none => (reg, false)
  | some p =>
    if topic.isEmpty then (reg, false)
    else
      match lookupTopic reg topic with
      | none => (reg, false)
      | some providers =>
        let kept := providers.filter (fun w => live w && w != p)
        if kept.length = providers.length then (reg, false)
        else if kept.isEmpty then (eraseTopic reg topic, true)
        else (setTopic reg topic kept, true)

/-- Member `MCPBroker::subscribe` : same shape as `registerContext`, on the
subscription index `m_subscriptions`. -/
def subscribe (live : Handle → Bool) (topic : Topic)
    (subscriber : Option Handle) (subs : Registry) : Registry × Bool :=
  match subscriber with
  | none => (subs, false)
  | some s =>
    if topic.isEmpty then (subs, false)
    else
      let subscribers := (lookupTopic subs topic).getD []
      if subscribers.any (fun w => live w && w == s) then (subs, false)
      else (setTopic subs topic (subscribers ++ [s]), true)

/-- Member `MCPBroker::unsubscribe` : same shape as `unregisterContext`, on the
subscription index. -/
def unsubscribe (live : Handle → Bool) (topic : Topic)
    (subscriber : Option Handle) (subs : Registry) : Registry × Bool :=
  match subscriber with
  | none => (subs, false)
  | some s =>
    if topic.isEmpty then (subs, false)
    else
      match lookupTopic subs topic with
      | none => (subs, false)
      | some subscribers =>
        let kept := subscribers.filter (fun w => live w && w != s)
        if kept.length = subscribers.length then (subs, false)
        else if kept.isEmpty then (eraseTopic subs topic, true)
        else (setTopic subs topic kept, true)

/-- Member `MCPBroker::unsubscribeAll` : rejects a null subscriber; otherwise
walks every topic, removes from each bucket every entry that is expired
or equal to the subscriber, erases topics whose buckets become empty,
and returns true iff at least one entry was removed from some bucket. -/
def unsubscribeAll (live : Handle → Bool) (subscriber : Option Handle)
    (subs : Registry) : Registry × Bool :=
  match subscriber with
  | none => (subs, false)
  | some s =>
    let newSubs := subs.filterMap (fun e =>
      let kept := e.2.filter (fun w => live w && w != s)
      if kept.length = e.2.length then some e
      else if kept.isEmpty then none
      else some (e.1, kept))
    let changed := subs.any (fun e =>
      (e.2.filter (fun w => live w && w != s)).length != e.2.length)
    (newSubs, changed)

/-- Member `MCPBroker::getAvailableTopics` : collects the key of every entry
whose bucket contains at least one handle that locks successfully.  The
function is `const` and does not modify `m_topicRegistry`. -/
def getAvailableTopics (live : Handle → Bool) (reg : Registry) : List Topic :=
  (reg.filter (fun e => e.2.any live)).map Prod.fst

/-- Member `MCPBroker::findProviders` : collects the live providers of the
topic's bucket; when some stored handle was expired
(`result.size() != providers.size()`) it erases the expired entries
from the bucket and erases the topic if the bucket becomes empty.
Returns the updated registry together with the result list. -/
def findProviders (live : Handle → Bool) (topic : Topic)
    (reg : Registry) : Registry × List Handle :=
  match lookupTopic reg topic with
  | none => (reg, [])
  | some providers =>
    let result := providers.filter live
    if result.length = providers.length then (reg, result)
    else if result.isEmpty then (eraseTopic reg topic, result)
    else (setTopic reg topic result, result)

/-! ### Messages, broker state and dispatch -/

/-- Record `MCPMessage_V1` (include/mcp/MCPMessage_V1.h).  The shared payload
pointer `data : std::shared_ptr<void>` is an `Option Nat` (a nullable
pointer identity); `timestamp` is an abstract tick. -/
structure MCPMessage where
  topic : String
  senderModuleId : Int
  dataFormat : String
  data : Option Nat
  dataSize : Nat
  messageId : Nat
  priority : Int
  timestamp : Nat

/-- The broker state relevant to the embedded operations:
`m_topicRegistry`, `m_subscriptions`, `m_messageQueue` and
`m_threadRunning` of `MCPBroker`. -/
structure BrokerState where
  topicRegistry : Registry
  subscriptions : Registry
  messageQueue : List MCPMessage
  threadRunning : Bool

/-- Member `MCPBroker::publish` : returns false when the message is null, its
topic is empty or its `data` pointer is null; returns false when the
worker thread is no longer running; otherwise appends the message to
`m_messageQueue` and returns true.  (`dataSize` is not examined.) -/
def publish (message : Option MCPMessage) (st : BrokerState) : BrokerState × Bool :=
  match message with
  | none => (st, false)
  | some m =>
    if m.topic.isEmpty then (st, false)
    else if m.data = none then (st, false)
    else if !st.threadRunning then (st, false)
    else ({ st with messageQueue := st.messageQueue ++ [m] }, true)

/-- Member `MCPBroker::deliverMessage` : snapshots the live subscribers of the
message's topic; when some stored handle was expired it erases the
expired entries from the bucket and erases the topic if the bucket
becomes empty.  Returns the updated subscription index together with
the snapshot (the strong handles whose `onMCPMessage` is invoked). -/
def deliverMessage (live : Handle → Bool) (m : MCPMessage)
    (subs : Registry) : Registry × List Handle :=
  match lookupTopic subs m.topic with
  | none => (subs, [])
  | some weakSubscribers =>
    let subscribers := weakSubscribers.filter live
    if subscribers.length = weakSubscribers.length then (subs, subscribers)
    else if subscribers.isEmpty then (eraseTopic subs m.topic, subscribers)
    else (setTopic subs m.topic subscribers, subscribers)

/-- One broker API call (or one worker-loop delivery step).  Each call
carries the liveness map of the moment it runs. -/
inductive BrokerOp where
  | register (t : Topic) (p : Option Handle)
  | unregister (t : Topic) (p : Option Handle)
  | subscribe (t : Topic) (s : Option Handle)
  | unsubscribe (t : Topic) (s : Option Handle)
  | unsubscribeAll (s : Option Handle)
  | publish (msg : Option MCPMessage)
  | deliverNext
  | findProviders (t : Topic)
  | getTopics

/-- State transition of one broker operation.  `deliverNext` is one
iteration of `processMessageQueue`: pop the front message (if any) and
deliver it.  `getTopics` (`getAvailableTopics`) never changes state. -/
def stepB (live : Handle → Bool) : BrokerOp → BrokerState → BrokerState
  | BrokerOp.register t p, st =>
      { st with topicRegistry := (registerContext live t p st.topicRegistry).1 }
  | BrokerOp.unregister t p, st =>
      { st with topicRegistry := (unregisterContext live t p st.topicRegistry).1 }
  | BrokerOp.subscribe t s, st =>
      { st with subscriptions := (subscribe live t s st.subscriptions).1 }
  | BrokerOp.unsubscribe t s, st =>
      { st with subscriptions := (unsubscribe live t s st.subscriptions).1 }
  | BrokerOp.unsubscribeAll s, st =>
      { st with subscriptions := (unsubscribeAll live s st.subscriptions).1 }
  | BrokerOp.publish msg, st => (publish msg st).1
  | BrokerOp.deliverNext, st =>
      match st.messageQueue with
      | [] => st
      | m :: rest =>
          { st with
              messageQueue := rest
              subscriptions := (deliverMessage live m st.subscriptions).1 }
  | BrokerOp.findProviders t, st =>
      { st with topicRegistry := (findProviders live t st.topicRegistry).1 }
  | BrokerOp.getTopics, st => st

/-- Run a sequence of broker operations, each with its own liveness map. -/
def runTrace (trace : List ((Handle → Bool) × BrokerOp)) (st : BrokerState) : BrokerState :=
  trace.foldl (fun acc pr => stepB pr.1 pr.2 acc) st

/-- Predicate stating that `s` occurs in no bucket of the registry. -/
def noHandle (s : Handle) (reg : Registry) : Prop :=
  ∀ e ∈ reg, s ∉ e.2

/-! ### Arithmetic helpers -/

theorem modTwoCases (a c : Nat) (h : a < 2 * c) :
    a % c = if a < c then a else a - c := by
  by_cases hlt : a < c
  · simp [hlt, Nat.mod_eq_of_lt]
  · have h1 : a - c < c := by omega
    have h2 : a = (a - c) + c := by omega
    simp only [hlt, if_false]
    calc a % c = ((a - c) + c) % c := by rw [← h2]
    _ = (a - c) % c := Nat.add_mod_right _ _
    _ = a - c := Nat.mod_eq_of_lt h1

theorem occupiedClosed (h t c : Nat) (hh : h < c) (ht : t < c) :
    (h + c - t) % c = if t ≤ h then h - t else h + c - t := by
  have hc : 0 < c := by omega
  have h2 : h + c - t < 2 * c := by omega
  rw [modTwoCases _ _ h2]
  split_ifs <;> omega

theorem modAddInj (t c i j : Nat) (hi : i < c) (hj : j < c)
    (h : (t + i) % c = (t + j) % c) : i = j := by
  have hc : 0 < c := by omega
  have ht := Nat.mod_lt t hc
  have e1 : (t + i) % c = (t % c + i) % c := by
    rw [Nat.add_mod, Nat.mod_eq_of_lt hi]
  have e2 : (t % c + i) % c = if t % c + i < c then t % c + i else t % c + i - c :=
    modTwoCases _ _ (by omega)
  have e3 : (t + j) % c = (t % c + j) % c := by
    rw [Nat.add_mod, Nat.mod_eq_of_lt hj]
  have e4 : (t % c + j) % c = if t % c + j < c then t % c + j else t % c + j - c :=
    modTwoCases _ _ (by omega)
  rw [e1, e2, e3, e4] at h
  split_ifs at h <;> omega

theorem slotTop (hd tl c : Nat) (hh : hd < c) (ht : tl < c) :
    (tl + (hd + c - tl) % c) % c = hd := by
  rw [occupiedClosed hd tl c hh ht]
  split_ifs with hth
  · have e : tl + (hd - tl) = hd := by omega
    rw [e, Nat.mod_eq_of_lt hh]
  · have e : tl + (hd + c - tl) = hd + c := by omega
    rw [e, Nat.add_mod_right, Nat.mod_eq_of_lt hh]

theorem push_fail_state (rb : RingBuffer α) (v : α) (hs : (rb.push v).2 = false) :
    (rb.push v).1 = rb := by
  unfold RingBuffer.push at hs ⊢
  split_ifs at hs ⊢ <;> simp_all

theorem pop_fail_state (rb : RingBuffer α) (hs : (rb.pop).2 = none) :
    (rb.pop).1 = rb := by
  unfold RingBuffer.pop at hs ⊢
  split_ifs at hs ⊢ <;> simp_all

theorem push_WF (rb : RingBuffer α) (v : α) (hwf : rb.WF) : (rb.push v).1.WF := by
  obtain ⟨hc, hh, ht⟩ := hwf
  unfold RingBuffer.push
  split_ifs with hcond
  · exact ⟨hc, hh, ht⟩
  · exact ⟨hc, Nat.mod_lt _ hc, ht⟩

theorem pop_WF (rb : RingBuffer α) (hwf : rb.WF) : (rb.pop).1.WF := by
  obtain ⟨hc, hh, ht⟩ := hwf
  unfold RingBuffer.pop
  split_ifs with hcond
  · exact ⟨hc, hh, ht⟩
  · exact ⟨hc, hh, Nat.mod_lt _ hc⟩

theorem push_capacity (rb : RingBuffer α) (v : α) :
    (rb.push v).1.m_capacity = rb.m_capacity := by
  unfold RingBuffer.push
  split_ifs <;> rfl

theorem pop_capacity (rb : RingBuffer α) :
    (rb.pop).1.m_capacity = rb.m_capacity := by
  unfold RingBuffer.pop
  split_ifs <;> rfl

theorem push_contents (rb : RingBuffer α) (v : α) (hwf : rb.WF)
    (hs : (rb.push v).2 = true) :
    (rb.push v).1.contents = rb.contents ++ [v] := by
  rcases rb with ⟨c, buf, hd, tl⟩
  obtain ⟨hc, hh, ht⟩ := hwf
  replace hc : 0 < c := hc
  replace hh : hd < c := hh
  replace ht : tl < c := ht
  by_cases hcond : (hd + 1) % c = tl
  · simp [RingBuffer.push, hcond] at hs
  · simp only [RingBuffer.push, if_neg hcond]
    simp only [RingBuffer.contents, RingBuffer.occupied]
    have hh2 : (hd + 1) % c < c := Nat.mod_lt _ hc
    have hszlt : (hd + c - tl) % c < c := Nat.mod_lt _ hc
    have hsz : ((hd + 1) % c + c - tl) % c = (hd + c - tl) % c + 1 := by
      by_cases hlt : hd + 1 < c
      · have hm : (hd + 1) % c = hd + 1 := Nat.mod_eq_of_lt hlt
        rw [hm] at hcond ⊢
        rw [occupiedClosed (hd + 1) tl c hlt ht, occupiedClosed hd tl c hh ht]
        split_ifs <;> omega
      · have hq : hd + 1 = c := by omega
        have hm : (hd + 1) % c = 0 := by rw [hq, Nat.mod_self]
        rw [hm] at hcond ⊢
        rw [occupiedClosed 0 tl c hc ht, occupiedClosed hd tl c hh ht]
        split_ifs <;> omega
    rw [hsz, List.range_succ, List.map_append]
    congr 1
    · rw [List.map_eq_map_iff]
      intro i hi
      rw [List.mem_range] at hi
      have hne : (tl + i) % c ≠ hd := by
        intro heq
        have := modAddInj tl c i ((hd + c - tl) % c) (by omega) hszlt
          (heq.trans (slotTop hd tl c hh ht).symm)
        omega
      simp only [hne, if_false]
    · simp only [List.map_cons, List.map_nil, slotTop hd tl c hh ht, if_pos]

theorem pop_contents (rb : RingBuffer α) (hwf : rb.WF) (x : α)
    (hs : (rb.pop).2 = some x) :
    rb.contents = x :: (rb.pop).1.contents := by
  rcases rb with ⟨c, buf, hd, tl⟩
  obtain ⟨hc, hh, ht⟩ := hwf
  replace hc : 0 < c := hc
  replace hh : hd < c := hh
  replace ht : tl < c := ht
  by_cases hcond : tl = hd
  · simp [RingBuffer.pop, hcond] at hs
  · simp only [RingBuffer.pop, if_neg hcond] at hs ⊢
    simp only [Option.some.injEq] at hs
    subst hs
    simp only [RingBuffer.contents, RingBuffer.occupied]
    have hsz : (hd + c - tl) % c = (hd + c - (tl + 1) % c) % c + 1 := by
      by_cases hlt : tl + 1 < c
      · have hm : (tl + 1) % c = tl + 1 := Nat.mod_eq_of_lt hlt
        rw [hm, occupiedClosed hd tl c hh ht, occupiedClosed hd (tl + 1) c hh hlt]
        split_ifs <;> omega
      · have hq : tl + 1 = c := by omega
        have hm : (tl + 1) % c = 0 := by rw [hq, Nat.mod_self]
        rw [hm, occupiedClosed hd tl c hh ht, occupiedClosed hd 0 c hh hc]
        split_ifs <;> omega
    rw [hsz, List.range_succ_eq_map, List.map_cons, List.map_map]
    congr 1
    · rw [Nat.add_zero, Nat.mod_eq_of_lt ht]
    · rw [List.map_eq_map_iff]
      intro i hi
      simp only [Function.comp_apply]
      have e1 : tl + (i + 1) = tl + 1 + i := by omega
      rw [e1, ← Nat.mod_add_mod]

theorem new_WF (capacity : Nat) (d : α) : (RingBuffer.new capacity d).WF :=
  ⟨Nat.succ_pos capacity, Nat.succ_pos capacity, Nat.succ_pos capacity⟩

theorem new_contents (capacity : Nat) (d : α) :
    (RingBuffer.new capacity d).contents = [] := by
  simp [RingBuffer.contents, RingBuffer.occupied, RingBuffer.new]

theorem runOps_spec (ops : List (RBOp α)) (rb : RingBuffer α) (hwf : rb.WF) :
    (runOps ops rb).1.WF ∧
    (runOps ops rb).1.m_capacity = rb.m_capacity ∧
    (runOps ops rb).2.2 ++ (runOps ops rb).1.contents
      = rb.contents ++ (runOps ops rb).2.1 := by
  induction ops generalizing rb with
  | nil => simpa [runOps] using hwf
  | cons op rest ih =>
    cases op with
    | push v =>
      obtain ⟨ih1, ih2, ih3⟩ := ih (rb.push v).1 (push_WF rb v hwf)
      cases hps : (rb.push v).2 with
      | true =>
        refine ⟨by simpa [runOps] using ih1, ?_, ?_⟩
        · simpa [runOps, push_capacity rb v] using ih2
        · simp only [runOps, hps, if_pos]
          rw [push_contents rb v hwf hps] at ih3
          simp only [List.append_assoc] at ih3 ⊢
          simpa using ih3
      | false =>
        have hst := push_fail_state rb v hps
        have hcont : (rb.push v).1.contents = rb.contents := by rw [hst]
        refine ⟨by simpa [runOps] using ih1, ?_, ?_⟩
        · simpa [runOps, push_capacity rb v] using ih2
        · rw [hcont] at ih3
          simp only [runOps, hps]
          simpa using ih3
    | pop =>
      obtain ⟨ih1, ih2, ih3⟩ := ih (rb.pop).1 (pop_WF rb hwf)
      cases hps : (rb.pop).2 with
      | some x =>
        refine ⟨by simpa [runOps] using ih1, ?_, ?_⟩
        · simpa [runOps, pop_capacity rb] using ih2
        · simp only [runOps, hps, Option.toList_some]
          rw [pop_contents rb hwf x hps]
          simpa using ih3
      | none =>
        have hst := pop_fail_state rb hps
        have hcont : (rb.pop).1.contents = rb.contents := by rw [hst]
        refine ⟨by simpa [runOps] using ih1, ?_, ?_⟩
        · simpa [runOps, pop_capacity rb] using ih2
        · rw [hcont] at ih3
          simp only [runOps, hps, Option.toList_none]
          simpa using ih3

/-! ### Claims about the ring buffer -/

/-- C3: for any sequence of push and pop operations on a ring buffer
(the sequential interleaving of one producer and one consumer), the
sequence of successfully popped values is a prefix of the sequence of
successfully pushed values, in push order (hence equal multisets of
consumed items, no duplication, no reordering); moreover `push` returns
false exactly when `(head + 1) % m_capacity = tail` and `pop` returns
false exactly when `head = tail`. -/
theorem C3_ringbuffer_fifo (capacity : Nat) (d : α) (ops : List (RBOp α)) :
    (∃ rest, (runOps ops (RingBuffer.new capacity d)).2.2 ++ rest
        = (runOps ops (RingBuffer.new capacity d)).2.1) ∧
    (∀ (rb : RingBuffer α) (v : α),
        (rb.push v).2 = false ↔ (rb.m_head + 1) % rb.m_capacity = rb.m_tail) ∧
    (∀ rb : RingBuffer α, (rb.pop).2 = none ↔ rb.m_head = rb.m_tail) := by
  refine ⟨?_, ?_, ?_⟩
  · obtain ⟨-, -, h3⟩ :=
      runOps_spec ops (RingBuffer.new capacity d) (new_WF capacity d)
    rw [new_contents, List.nil_append] at h3
    exact ⟨(runOps ops (RingBuffer.new capacity d)).1.contents, h3⟩
  · intro rb v
    unfold RingBuffer.push
    split_ifs with h <;> simp [h]
  · intro rb
    unfold RingBuffer.pop
    split_ifs with h
    · simp [h]
    · simp
      omega

/-- C4 counterexample: the claim quantifies over every constructed
`RingBuffer`, but the constructor also accepts `capacity = 0`, and for a
buffer constructed with `capacity = 0` the `empty()` and `full()`
predicates are simultaneously true immediately after construction. -/
theorem C4_cex :
    (RingBuffer.new 0 (0 : Nat)).empty = true ∧
    (RingBuffer.new 0 (0 : Nat)).full = true := by
  exact ⟨rfl, rfl⟩

/-- C4 (amended): for every ring buffer constructed with
`capacity ≥ 1`, after any sequence of push and pop operations, `empty()`
and `full()` are never simultaneously true. -/
theorem C4_empty_full (capacity : Nat) (hcap : 1 ≤ capacity) (d : α)
    (ops : List (RBOp α)) :
    ¬((runOps ops (RingBuffer.new capacity d)).1.empty = true ∧
      (runOps ops (RingBuffer.new capacity d)).1.full = true) := by
  obtain ⟨hwf, hcapEq, -⟩ :=
    runOps_spec ops (RingBuffer.new capacity d) (new_WF capacity d)
  obtain ⟨hc, hh, ht⟩ := hwf
  rintro ⟨he, hf⟩
  simp only [RingBuffer.empty, beq_iff_eq] at he
  simp only [RingBuffer.full, beq_iff_eq] at hf
  have hcap2 : 2 ≤ (runOps ops (RingBuffer.new capacity d)).1.m_capacity := by
    rw [hcapEq]
    show 2 ≤ capacity + 1
    omega
  rw [← he] at hf
  have hm : ((runOps ops (RingBuffer.new capacity d)).1.m_head + 1) %
      (runOps ops (RingBuffer.new capacity d)).1.m_capacity =
      if (runOps ops (RingBuffer.new capacity d)).1.m_head + 1 <
          (runOps ops (RingBuffer.new capacity d)).1.m_capacity
      then (runOps ops (RingBuffer.new capacity d)).1.m_head + 1
      else (runOps ops (RingBuffer.new capacity d)).1.m_head + 1 -
          (runOps ops (RingBuffer.new capacity d)).1.m_capacity :=
    modTwoCases _ _ (by omega)
  rw [hm] at hf
  split_ifs at hf <;> omega

theorem C4_empty_full_witness :
    1 ≤ 1 ∧
    ¬((runOps [] (RingBuffer.new 1 (0 : Nat))).1.empty = true ∧
      (runOps [] (RingBuffer.new 1 (0 : Nat))).1.full = true) :=
  ⟨Nat.le_refl 1, C4_empty_full 1 (Nat.le_refl 1) 0 []⟩

/-- C9: the constructor accepts `capacity = 0` (no enforcement of the
`capacity ≥ 1` precondition), producing a buffer whose internal array
length (`m_capacity`) is `1`, on which every push returns false, every
pop returns false, and any sequence of operations leaves the state
unchanged with no value ever transferred. -/
theorem C9_zero_capacity (d : α) (ops : List (RBOp α)) :
    (RingBuffer.new 0 d).m_capacity = 1 ∧
    (∀ v, (RingBuffer.new 0 d).push v = (RingBuffer.new 0 d, false)) ∧
    (RingBuffer.new 0 d).pop = (RingBuffer.new 0 d, none) ∧
    runOps ops (RingBuffer.new 0 d) = (RingBuffer.new 0 d, ([], [])) := by
  have hpush : ∀ v : α, (RingBuffer.new 0 d).push v = (RingBuffer.new 0 d, false) := by
    intro v
    simp [RingBuffer.push, RingBuffer.new]
  have hpop : (RingBuffer.new 0 d).pop = (RingBuffer.new 0 d, none) := rfl
  refine ⟨rfl, hpush, hpop, ?_⟩
  induction ops with
  | nil => rfl
  | cons op rest ih =>
    cases op with
    | push v =>
      simp only [runOps, hpush v, ih]
      rfl
    | pop =>
      simp only [runOps, hpop, ih]
      rfl


/-! ### Registry helper lemmas -/

theorem filterLengthEqIff {p : α → Bool} (l : List α) :
    (l.filter p).length = l.length ↔ ∀ a ∈ l, p a = true := by
  induction l with
  | nil => simp
  | cons x xs ih =>
    by_cases hx : p x = true
    · simp [List.filter_cons, hx, ih]
    · have hle := List.length_filter_le p xs
      rw [List.filter_cons, if_neg hx]
      simp only [List.length_cons]
      constructor
      · intro h
        exact absurd h (by omega)
      · intro h
        exact absurd (h x (List.mem_cons_self x xs)) hx

theorem filterLengthNeIff {p : α → Bool} (l : List α) :
    ((l.filter p).length = l.length → False) ↔ ∃ a ∈ l, p a = false := by
  rw [filterLengthEqIff]
  constructor
  · intro h
    by_contra hc
    push_neg at hc
    refine h (fun a ha => ?_)
    cases hpa : p a
    · exact absurd hpa (hc a ha)
    · rfl
  · rintro ⟨a, ha, hpa⟩ hall
    rw [hall a ha] at hpa
    cases hpa

theorem keepEqTrueIff (live : Handle → Bool) (x w : Handle) :
    (live w && w != x) = true ↔ (live w = true ∧ w ≠ x) := by
  cases hl : live w <;> by_cases hw : w = x <;> simp [hl, hw]

theorem keepEqFalseIff (live : Handle → Bool) (x w : Handle) :
    (live w && w != x) = false ↔ (live w = false ∨ w = x) := by
  cases hl : live w <;> by_cases hw : w = x <;> simp [hl, hw]

theorem lookupTopic_setTopic_self (reg : Registry) (t : Topic) (b : Bucket) :
    lookupTopic (setTopic reg t b) t = some b := by
  induction reg with
  | nil => simp [setTopic, lookupTopic]
  | cons e rest ih =>
    by_cases he : e.1 = t
    · simp [setTopic, he, lookupTopic]
    · simp [setTopic, he, lookupTopic, ih]

theorem lookupTopic_eq_none (reg : Registry) (t : Topic)
    (h : t ∉ reg.map Prod.fst) : lookupTopic reg t = none := by
  induction reg with
  | nil => rfl
  | cons e rest ih =>
    simp only [List.map_cons, List.mem_cons] at h
    push_neg at h
    have hne : e.1 ≠ t := fun heq => h.1 heq.symm
    simp [lookupTopic, hne, ih h.2]

theorem lookupTopic_eraseTopic_self (reg : Registry) (t : Topic)
    (hnd : (reg.map Prod.fst).Nodup) :
    lookupTopic (eraseTopic reg t) t = none := by
  induction reg with
  | nil => rfl
  | cons e rest ih =>
    simp only [List.map_cons, List.nodup_cons] at hnd
    by_cases he : e.1 = t
    · simp only [eraseTopic, he, if_pos]
      refine lookupTopic_eq_none rest t ?_
      rw [← he]
      exact hnd.1
    · simp [eraseTopic, he, lookupTopic, ih hnd.2]

theorem lookupTopic_mem (reg : Registry) (t : Topic) (b : Bucket)
    (h : lookupTopic reg t = some b) : (t, b) ∈ reg := by
  induction reg with
  | nil => cases h
  | cons e rest ih =>
    by_cases he : e.1 = t
    · simp only [lookupTopic, he, if_pos] at h
      have hb : e.2 = b := by injection h
      have he2 : e = (t, b) := by
        cases e
        simp_all
      rw [he2]
      exact List.mem_cons_self _ _
    · simp only [lookupTopic, he, if_false] at h
      exact List.mem_cons_of_mem _ (ih h)

theorem lookupTopic_of_mem_nodup (reg : Registry) (t : Topic) (b : Bucket)
    (hnd : (reg.map Prod.fst).Nodup) (h : (t, b) ∈ reg) :
    lookupTopic reg t = some b := by
  induction reg with
  | nil => cases h
  | cons e rest ih =>
    simp only [List.map_cons, List.nodup_cons] at hnd
    rcases List.mem_cons.mp h with he | hrest
    · rw [← he]
      simp [lookupTopic]
    · have hne : e.1 ≠ t := by
        intro heq
        have hmem : t ∈ rest.map Prod.fst := List.mem_map_of_mem Prod.fst hrest
        exact hnd.1 (by rw [heq]; exact hmem)
      simp [lookupTopic, hne, ih hnd.2 hrest]


theorem unregister_result (live : Handle → Bool) (t : Topic) (p : Handle)
    (reg : Registry) (ht : t.isEmpty = false) (b : Bucket)
    (hl : lookupTopic reg t = some b) :
    unregisterContext live t (some p) reg =
      (if (b.filter (fun w => live w && w != p)).length = b.length then
        (reg, false)
      else if (b.filter (fun w => live w && w != p)).isEmpty then
        (eraseTopic reg t, true)
      else
        (setTopic reg t (b.filter (fun w => live w && w != p)), true)) := by
  simp only [unregisterContext, ht, Bool.false_eq_true, if_false, hl]

/-! ### Claims about the registry -/

/-- C1 counterexample: with topic `"t"` whose bucket holds only the
expired handle `7` (the liveness map makes exactly `5` live),
`unregisterContext` for the live provider `5` — which is not present in
the bucket — purges the expired entry and returns `true`, where the
claim requires `false` whenever the given provider was not present. -/
theorem C1_cex :
    (unregisterContext (fun h => h == 5) "t" (some 5) [("t", [7])]).2 = true ∧
    (5 : Handle) ∉ ([7] : Bucket) ∧
    ((fun h => h == 5) : Handle → Bool) 7 = false := by
  refine ⟨?_, by decide, rfl⟩
  rfl

/-- C1 (amended): for a non-null provider, `unregisterContext` returns
true iff the topic is non-empty, the topic is present in the registry,
and its bucket contains at least one entry that is expired or equal to
the provider — the `remove_if` removes expired entries together with
the provider and the function reports success if anything at all was
removed, so it also returns true when only expired entries were purged
and the provider was not present.  Moreover, on a non-empty topic the
bucket remaining after the call (if any) holds only live handles
different from the provider, a successful call never leaves an empty
bucket (the topic is erased instead), and a null provider is rejected
with the state unchanged. -/
theorem C1_unregister_amended (live : Handle → Bool) (t : Topic) (p : Handle)
    (reg : Registry) (hnd : (reg.map Prod.fst).Nodup) :
    ((unregisterContext live t (some p) reg).2 = true ↔
      (t.isEmpty = false ∧ ∃ b, lookupTopic reg t = some b ∧
        ∃ w ∈ b, (live w = false ∨ w = p))) ∧
    (∀ b2, t.isEmpty = false →
      lookupTopic (unregisterContext live t (some p) reg).1 t = some b2 →
      ((∀ w ∈ b2, live w = true ∧ w ≠ p) ∧
       ((unregisterContext live t (some p) reg).2 = true → b2 ≠ []))) ∧
    unregisterContext live t none reg = (reg, false) := by
  by_cases ht : t.isEmpty = true
  · refine ⟨?_, ?_, rfl⟩
    · simp [unregisterContext, ht]
    · intro b2 ht2 hb2
      rw [ht2] at ht
      cases ht
  · rw [Bool.not_eq_true] at ht
    refine ⟨?_, ?_, rfl⟩
    · cases hl : lookupTopic reg t with
      | none => simp [unregisterContext, ht, hl]
      | some b =>
        rw [unregister_result live t p reg ht b hl]
        by_cases hlen : (b.filter (fun w => live w && w != p)).length = b.length
        · rw [if_pos hlen]
          rw [filterLengthEqIff] at hlen
          constructor
          · intro h
            exact absurd h (by simp)
          · rintro ⟨-, b2, hb2, w, hw, hwp⟩
            injection hb2 with hb2
            subst hb2
            have hk := hlen w hw
            rw [keepEqTrueIff] at hk
            rcases hwp with hdead | rfl
            · rw [hk.1] at hdead
              exact Bool.noConfusion hdead
            · exact absurd rfl hk.2
        · have hex : ∃ w ∈ b, (live w = false ∨ w = p) := by
            obtain ⟨w, hw, hwf⟩ := (filterLengthNeIff b).mp hlen
            exact ⟨w, hw, (keepEqFalseIff live p w).mp hwf⟩
          rw [if_neg hlen]
          split_ifs with hemp
          · exact iff_of_true rfl ⟨ht, b, rfl, hex⟩
          · exact iff_of_true rfl ⟨ht, b, rfl, hex⟩
    · intro b2 ht2 hb2
      cases hl : lookupTopic reg t with
      | none =>
        simp only [unregisterContext, ht, Bool.false_eq_true, if_false, hl] at hb2
        cases hb2
      | some b =>
        rw [unregister_result live t p reg ht b hl] at hb2 ⊢
        by_cases hlen : (b.filter (fun w => live w && w != p)).length = b.length
        · rw [if_pos hlen] at hb2 ⊢
          dsimp only at hb2
          rw [hl] at hb2
          injection hb2 with hb2
          subst hb2
          rw [filterLengthEqIff] at hlen
          refine ⟨fun w hw => (keepEqTrueIff live p w).mp (hlen w hw), ?_⟩
          intro hfalse
          exact absurd hfalse (by simp)
        · rw [if_neg hlen] at hb2 ⊢
          split_ifs at hb2 ⊢ with hemp
          · dsimp only at hb2
            rw [lookupTopic_eraseTopic_self reg t hnd] at hb2
            cases hb2
          · dsimp only at hb2
            rw [lookupTopic_setTopic_self] at hb2
            injection hb2 with hb2
            subst hb2
            refine ⟨fun w hw => ?_, fun _ he => ?_⟩
            · exact (keepEqTrueIff live p w).mp (List.mem_filter.mp hw).2
            · rw [he] at hemp
              exact hemp rfl

theorem C1_unregister_witness :
    (([("t", [5, 7])] : Registry).map Prod.fst).Nodup ∧
    (((unregisterContext (fun h => h == 5) "t" (some 5) [("t", [5, 7])]).2 = true ↔
      (("t" : Topic).isEmpty = false ∧ ∃ b, lookupTopic [("t", [5, 7])] "t" = some b ∧
        ∃ w ∈ b, ((fun h => h == 5) w = false ∨ w = 5))) ∧
    (∀ b2, ("t" : Topic).isEmpty = false →
      lookupTopic (unregisterContext (fun h => h == 5) "t" (some 5) [("t", [5, 7])]).1 "t" = some b2 →
      ((∀ w ∈ b2, (fun h => h == 5) w = true ∧ w ≠ 5) ∧
       ((unregisterContext (fun h => h == 5) "t" (some 5) [("t", [5, 7])]).2 = true → b2 ≠ []))) ∧
    unregisterContext (fun h => h == 5) "t" none [("t", [5, 7])] = ([("t", [5, 7])], false)) :=
  ⟨by simp,
    C1_unregister_amended (fun h => h == 5) "t" 5 [("t", [5, 7])] (by simp)⟩

/-- C6: registering (or subscribing) a handle that is already present
for the topic returns false and leaves the registry state completely
unchanged. -/
theorem C6_duplicate_noop (live : Handle → Bool) (t : Topic) (p s : Handle)
    (reg subs : Registry) (ht : t.isEmpty = false)
    (hp : live p = true) (hs : live s = true)
    (b : Bucket) (hb : lookupTopic reg t = some b) (hpb : p ∈ b)
    (b2 : Bucket) (hb2 : lookupTopic subs t = some b2) (hsb : s ∈ b2) :
    registerContext live t (some p) reg = (reg, false) ∧
    subscribe live t (some s) subs = (subs, false) := by
  constructor
  · simp only [registerContext, ht, Bool.false_eq_true, if_false, hb, Option.getD_some]
    rw [if_pos (List.any_eq_true.mpr ⟨p, hpb, by simp [hp]⟩)]
  · simp only [subscribe, ht, Bool.false_eq_true, if_false, hb2, Option.getD_some]
    rw [if_pos (List.any_eq_true.mpr ⟨s, hsb, by simp [hs]⟩)]

theorem C6_duplicate_noop_witness :
    registerContext (fun _ => true) "t" (some 5) [("t", [5])] = ([("t", [5])], false) ∧
    subscribe (fun _ => true) "t" (some 6) [("t", [6])] = ([("t", [6])], false) :=
  C6_duplicate_noop (fun _ => true) "t" 5 6 [("t", [5])] [("t", [6])] rfl rfl rfl
    [5] rfl (by decide) [6] rfl (by decide)

theorem mem_getAvailableTopics (live : Handle → Bool) (reg : Registry) (u : Topic) :
    u ∈ getAvailableTopics live reg ↔
      ∃ e ∈ reg, e.1 = u ∧ ∃ w ∈ e.2, live w = true := by
  unfold getAvailableTopics
  rw [List.mem_map]
  constructor
  · rintro ⟨e, he, rfl⟩
    rw [List.mem_filter] at he
    exact ⟨e, he.1, rfl, List.any_eq_true.mp he.2⟩
  · rintro ⟨e, he, rfl, w, hw, hlw⟩
    exact ⟨e, List.mem_filter.mpr ⟨he, List.any_eq_true.mpr ⟨w, hw, hlw⟩⟩, rfl⟩

theorem findProviders_result (live : Handle → Bool) (t : Topic) (reg : Registry)
    (b : Bucket) (hl : lookupTopic reg t = some b) :
    findProviders live t reg =
      (if (b.filter live).length = b.length then (reg, b.filter live)
      else if (b.filter live).isEmpty then (eraseTopic reg t, b.filter live)
      else (setTopic reg t (b.filter live), b.filter live)) := by
  simp only [findProviders, hl]

theorem findProviders_snd_live (live : Handle → Bool) (t : Topic) (reg : Registry) :
    ∀ h ∈ (findProviders live t reg).2, live h = true := by
  intro h hmem
  cases hl : lookupTopic reg t with
  | none =>
    simp only [findProviders, hl] at hmem
    cases hmem
  | some b =>
    rw [findProviders_result live t reg b hl] at hmem
    split_ifs at hmem <;> exact (List.mem_filter.mp hmem).2

/-- C8: `getAvailableTopics` lists exactly the topics whose bucket has
at least one live provider, and for every listed topic `findProviders`
on the same registry state returns a non-empty list. -/
theorem C8_topics_find (live : Handle → Bool) (reg : Registry)
    (hnd : (reg.map Prod.fst).Nodup) :
    (∀ t, t ∈ getAvailableTopics live reg ↔
      ∃ e ∈ reg, e.1 = t ∧ ∃ w ∈ e.2, live w = true) ∧
    (∀ t, t ∈ getAvailableTopics live reg → (findProviders live t reg).2 ≠ []) := by
  refine ⟨fun t => mem_getAvailableTopics live reg t, fun t htm => ?_⟩
  obtain ⟨e, he, het, w, hw, hlw⟩ := (mem_getAvailableTopics live reg t).mp htm
  have hl : lookupTopic reg t = some e.2 := by
    apply lookupTopic_of_mem_nodup reg t e.2 hnd
    rw [← het]
    exact he
  have hwf : w ∈ e.2.filter live := List.mem_filter.mpr ⟨hw, hlw⟩
  rw [findProviders_result live t reg e.2 hl]
  split_ifs <;> exact List.ne_nil_of_mem hwf

theorem C8_topics_find_witness :
    (∀ t, t ∈ getAvailableTopics (fun _ => true) [("t", [5])] ↔
      ∃ e ∈ ([("t", [5])] : Registry), e.1 = t ∧ ∃ w ∈ e.2, (fun _ => true) w = true) ∧
    (∀ t, t ∈ getAvailableTopics (fun _ => true) [("t", [5])] →
      (findProviders (fun _ => true) t [("t", [5])]).2 ≠ []) :=
  C8_topics_find (fun _ => true) [("t", [5])] (by simp)

/-- C5 counterexample: `getAvailableTopics` visits the bucket of topic
`"t"` (it enumerates every entry of the registry), yet the expired
handle `7` is not purged — the registry is left completely unchanged —
contradicting the claim that every operation that visits a bucket
purges its expired entries during that call. -/
theorem C5_cex :
    getAvailableTopics (fun _ => false) [("t", [7])] = [] ∧
    stepB (fun _ => false) BrokerOp.getTopics
        { topicRegistry := [("t", [7])], subscriptions := [], messageQueue := [],
          threadRunning := true } =
      { topicRegistry := [("t", [7])], subscriptions := [], messageQueue := [],
        threadRunning := true } ∧
    ((fun _ => false) : Handle → Bool) 7 = false :=
  ⟨rfl, rfl, rfl⟩

/-- C5 (amended): expired weak handles are invisible to every
enumeration result — `getAvailableTopics` never lists a topic whose
providers are all expired, and `findProviders` never returns a dead
handle.  `findProviders` purges the expired entries of the visited
bucket during the call (the bucket left for the topic, if any, holds
only live handles), but `getAvailableTopics` performs no purge: it
leaves the broker state unchanged. -/
theorem C5_purge_amended (live : Handle → Bool) (reg : Registry) (t : Topic)
    (hnd : (reg.map Prod.fst).Nodup) :
    (∀ u ∈ getAvailableTopics live reg,
      ∃ e ∈ reg, e.1 = u ∧ ∃ w ∈ e.2, live w = true) ∧
    (∀ h ∈ (findProviders live t reg).2, live h = true) ∧
    (∀ b, lookupTopic (findProviders live t reg).1 t = some b →
      ∀ w ∈ b, live w = true) ∧
    (∀ st : BrokerState, stepB live BrokerOp.getTopics st = st) := by
  refine ⟨fun u hu => (mem_getAvailableTopics live reg u).mp hu,
    findProviders_snd_live live t reg, ?_, fun st => rfl⟩
  intro b hb w hw
  cases hl : lookupTopic reg t with
  | none =>
    simp only [findProviders, hl] at hb
    cases hb
  | some b0 =>
    rw [findProviders_result live t reg b0 hl] at hb
    by_cases hlen : (b0.filter live).length = b0.length
    · rw [if_pos hlen] at hb
      dsimp only at hb
      rw [hl] at hb
      injection hb with hb
      subst hb
      rw [filterLengthEqIff] at hlen
      exact hlen w hw
    · rw [if_neg hlen] at hb
      split_ifs at hb with hemp
      · dsimp only at hb
        rw [lookupTopic_eraseTopic_self reg t hnd] at hb
        cases hb
      · dsimp only at hb
        rw [lookupTopic_setTopic_self] at hb
        injection hb with hb
        subst hb
        exact (List.mem_filter.mp hw).2

theorem C5_purge_witness :
    (∀ u ∈ getAvailableTopics (fun h => h == 5) [("t", [5, 7])],
      ∃ e ∈ ([("t", [5, 7])] : Registry), e.1 = u ∧
        ∃ w ∈ e.2, (fun h => h == 5) w = true) ∧
    (∀ h ∈ (findProviders (fun h => h == 5) "t" [("t", [5, 7])]).2,
      (fun h => h == 5) h = true) ∧
    (∀ b, lookupTopic (findProviders (fun h => h == 5) "t" [("t", [5, 7])]).1 "t"
        = some b → ∀ w ∈ b, (fun h => h == 5) w = true) ∧
    (∀ st : BrokerState, stepB (fun h => h == 5) BrokerOp.getTopics st = st) :=
  C5_purge_amended (fun h => h == 5) [("t", [5, 7])] "t" (by simp)

/-- C2 counterexample: a non-null message on a non-empty topic whose
payload pointer is non-null but whose `dataSize` is zero is accepted by
`publish` (the code never examines `dataSize`), where the claim
requires `publish` to return false on a zero payload size. -/
theorem C2_cex :
    (publish
      (some
        { topic := "t", senderModuleId := 1, dataFormat := "application/msgpack",
          data := some 1, dataSize := 0, messageId := 0, priority := 5,
          timestamp := 0 })
      { topicRegistry := [], subscriptions := [], messageQueue := [],
        threadRunning := true }).2 = true ∧
    MCPMessage.dataSize
      { topic := "t", senderModuleId := 1, dataFormat := "application/msgpack",
        data := some 1, dataSize := 0, messageId := 0, priority := 5,
        timestamp := 0 } = 0 :=
  ⟨rfl, rfl⟩

/-- C2 (amended): `publish` returns true iff the message is non-null,
its topic is non-empty, its payload pointer is non-null and the worker
thread is still running, in which case the message is appended to the
FIFO; it returns false in every other case.  A zero `dataSize` is not
checked: messages with `dataSize = 0` are accepted. -/
theorem C2_publish_amended (message : Option MCPMessage) (st : BrokerState) :
    (publish message st).2 = true ↔
      ∃ m, message = some m ∧ m.topic.isEmpty = false ∧ m.data ≠ none ∧
        st.threadRunning = true ∧
        (publish message st).1
          = { st with messageQueue := st.messageQueue ++ [m] } := by
  cases message with
  | none => simp [publish]
  | some m =>
    by_cases ht : m.topic.isEmpty = true
    · simp [publish, ht]
    · rw [Bool.not_eq_true] at ht
      by_cases hd : m.data = none
      · simp [publish, ht, hd]
      · by_cases hr : st.threadRunning = true
        · simp [publish, ht, hd, hr]
        · rw [Bool.not_eq_true] at hr
          simp [publish, ht, hd, hr]

theorem publish_frame (message : Option MCPMessage) (st : BrokerState) :
    (publish message st).1.topicRegistry = st.topicRegistry ∧
    (publish message st).1.subscriptions = st.subscriptions ∧
    (publish message st).1.threadRunning = st.threadRunning := by
  cases message with
  | none => exact ⟨rfl, rfl, rfl⟩
  | some m =>
    simp only [publish]
    split_ifs <;> exact ⟨rfl, rfl, rfl⟩

/-- C10: `publish` never modifies the provider registry or the
subscriber registry (nor the running flag): whatever the message and
state, both indices are exactly as before the call; only the message
FIFO may have changed. -/
theorem C10_publish_frame (message : Option MCPMessage) (st : BrokerState) :
    (publish message st).1.topicRegistry = st.topicRegistry ∧
    (publish message st).1.subscriptions = st.subscriptions ∧
    (publish message st).1.threadRunning = st.threadRunning :=
  publish_frame message st

/-! ### Absence of an unsubscribed handle -/

theorem noHandle_setTopic (s : Handle) (reg : Registry) (t : Topic) (b : Bucket)
    (hreg : noHandle s reg) (hb : s ∉ b) : noHandle s (setTopic reg t b) := by
  induction reg with
  | nil =>
    intro e he
    simp only [setTopic, List.mem_singleton] at he
    subst he
    exact hb
  | cons e0 rest ih =>
    intro e he
    simp only [setTopic] at he
    by_cases h0 : e0.1 = t
    · rw [if_pos h0] at he
      rcases List.mem_cons.mp he with rfl | hrest
      · exact hb
      · exact hreg e (List.mem_cons_of_mem _ hrest)
    · rw [if_neg h0] at he
      rcases List.mem_cons.mp he with rfl | hrest
      · exact hreg _ (List.mem_cons_self _ _)
      · exact ih (fun e2 he2 => hreg e2 (List.mem_cons_of_mem _ he2)) e hrest

theorem noHandle_eraseTopic (s : Handle) (reg : Registry) (t : Topic)
    (hreg : noHandle s reg) : noHandle s (eraseTopic reg t) := by
  induction reg with
  | nil =>
    intro e he
    cases he
  | cons e0 rest ih =>
    intro e he
    simp only [eraseTopic] at he
    by_cases h0 : e0.1 = t
    · rw [if_pos h0] at he
      exact hreg e (List.mem_cons_of_mem _ he)
    · rw [if_neg h0] at he
      rcases List.mem_cons.mp he with rfl | hrest
      · exact hreg _ (List.mem_cons_self _ _)
      · exact ih (fun e2 he2 => hreg e2 (List.mem_cons_of_mem _ he2)) e hrest

theorem unsubscribeAll_removes (live : Handle → Bool) (s : Handle)
    (subs : Registry) : noHandle s (unsubscribeAll live (some s) subs).1 := by
  intro e he
  simp only [unsubscribeAll] at he
  rw [List.mem_filterMap] at he
  obtain ⟨e0, he0, hf⟩ := he
  split_ifs at hf with h1 h2
  · injection hf with hf
    rw [← hf]
    rw [filterLengthEqIff] at h1
    intro hmem
    have hk := h1 s hmem
    rw [keepEqTrueIff] at hk
    exact hk.2 rfl
  · injection hf with hf
    rw [← hf]
    intro hmem
    have hk := (List.mem_filter.mp hmem).2
    rw [keepEqTrueIff] at hk
    exact hk.2 rfl

theorem noHandle_unsubscribeAll (s : Handle) (x : Option Handle)
    (live : Handle → Bool) (subs : Registry) (h : noHandle s subs) :
    noHandle s (unsubscribeAll live x subs).1 := by
  cases x with
  | none => exact h
  | some x0 =>
    intro e he
    simp only [unsubscribeAll] at he
    rw [List.mem_filterMap] at he
    obtain ⟨e0, he0, hf⟩ := he
    split_ifs at hf
    · injection hf with hf
      rw [← hf]
      exact h e0 he0
    · injection hf with hf
      rw [← hf]
      intro hmem
      exact h e0 he0 (List.mem_filter.mp hmem).1

theorem noHandle_subscribe (s : Handle) (live : Handle → Bool) (t : Topic)
    (x : Option Handle) (hx : x ≠ some s) (subs : Registry)
    (h : noHandle s subs) : noHandle s (subscribe live t x subs).1 := by
  cases x with
  | none => exact h
  | some x0 =>
    have hxs : x0 ≠ s := fun he => hx (by rw [he])
    by_cases ht : t.isEmpty = true
    · simp only [subscribe, ht, if_true]
      exact h
    · rw [Bool.not_eq_true] at ht
      simp only [subscribe, ht, Bool.false_eq_true, if_false]
      by_cases hany :
          ((lookupTopic subs t).getD []).any (fun w => live w && w == x0) = true
      · rw [if_pos hany]
        exact h
      · rw [if_neg hany]
        refine noHandle_setTopic s subs t _ h ?_
        intro hmem
        rcases List.mem_append.mp hmem with hin | hin
        · cases hl : lookupTopic subs t with
          | none =>
            simp only [hl, Option.getD_none] at hin
            cases hin
          | some b =>
            simp only [hl, Option.getD_some] at hin
            exact h (t, b) (lookupTopic_mem subs t b hl) hin
        · rw [List.mem_singleton] at hin
          exact hxs hin.symm

theorem noHandle_unsubscribe (s : Handle) (live : Handle → Bool) (t : Topic)
    (x : Option Handle) (subs : Registry) (h : noHandle s subs) :
    noHandle s (unsubscribe live t x subs).1 := by
  cases x with
  | none => exact h
  | some x0 =>
    by_cases ht : t.isEmpty = true
    · simp only [unsubscribe, ht, if_true]
      exact h
    · rw [Bool.not_eq_true] at ht
      cases hl : lookupTopic subs t with
      | none =>
        simp only [unsubscribe, ht, Bool.false_eq_true, if_false, hl]
        exact h
      | some b =>
        simp only [unsubscribe, ht, Bool.false_eq_true, if_false, hl]
        split_ifs with h1 h2
        · exact h
        · exact noHandle_eraseTopic s subs t h
        · refine noHandle_setTopic s subs t _ h ?_
          intro hmem
          exact h (t, b) (lookupTopic_mem subs t b hl) (List.mem_filter.mp hmem).1

theorem noHandle_deliverMessage (s : Handle) (live : Handle → Bool)
    (m : MCPMessage) (subs : Registry) (h : noHandle s subs) :
    noHandle s (deliverMessage live m subs).1 ∧
    s ∉ (deliverMessage live m subs).2 := by
  cases hl : lookupTopic subs m.topic with
  | none =>
    simp only [deliverMessage, hl]
    exact ⟨h, List.not_mem_nil s⟩
  | some b =>
    have hsb : s ∉ b := h (m.topic, b) (lookupTopic_mem subs m.topic b hl)
    have hsnap : s ∉ b.filter live := fun hmem => hsb (List.mem_filter.mp hmem).1
    simp only [deliverMessage, hl]
    split_ifs with h1 h2
    · exact ⟨h, hsnap⟩
    · exact ⟨noHandle_eraseTopic s subs m.topic h, hsnap⟩
    · exact ⟨noHandle_setTopic s subs m.topic _ h hsnap, hsnap⟩

theorem stepB_noHandle (live : Handle → Bool) (op : BrokerOp) (st : BrokerState)
    (s : Handle) (h : noHandle s st.subscriptions)
    (hop : ∀ t, op ≠ BrokerOp.subscribe t (some s)) :
    noHandle s (stepB live op st).subscriptions := by
  cases op with
  | register t p => exact h
  | unregister t p => exact h
  | subscribe t x =>
    have hx : x ≠ some s := fun he => hop t (by rw [he])
    exact noHandle_subscribe s live t x hx st.subscriptions h
  | unsubscribe t x => exact noHandle_unsubscribe s live t x st.subscriptions h
  | unsubscribeAll x => exact noHandle_unsubscribeAll s x live st.subscriptions h
  | publish msg =>
    have hfr := (publish_frame msg st).2.1
    show noHandle s (publish msg st).1.subscriptions
    rw [hfr]
    exact h
  | deliverNext =>
    cases hq : st.messageQueue with
    | nil =>
      simp only [stepB, hq]
      exact h
    | cons m rest =>
      simp only [stepB, hq]
      exact (noHandle_deliverMessage s live m st.subscriptions h).1
  | findProviders t => exact h
  | getTopics => exact h

theorem runTrace_noHandle (trace : List ((Handle → Bool) × BrokerOp))
    (st : BrokerState) (s : Handle) (h : noHandle s st.subscriptions)
    (hop : ∀ pr ∈ trace, ∀ t, pr.2 ≠ BrokerOp.subscribe t (some s)) :
    noHandle s (runTrace trace st).subscriptions := by
  induction trace generalizing st with
  | nil => exact h
  | cons pr rest ih =>
    exact ih (stepB pr.1 pr.2 st)
      (stepB_noHandle pr.1 pr.2 st s h (hop pr (List.mem_cons_self _ _)))
      (fun pr2 hpr2 => hop pr2 (List.mem_cons_of_mem _ hpr2))

theorem unsubscribeAll_true_iff (live : Handle → Bool) (s : Handle)
    (subs : Registry) :
    (unsubscribeAll live (some s) subs).2 = true ↔
      ∃ e ∈ subs, ∃ w ∈ e.2, (live w = false ∨ w = s) := by
  simp only [unsubscribeAll]
  rw [List.any_eq_true]
  constructor
  · rintro ⟨e, he, hne⟩
    rw [bne_iff_ne] at hne
    obtain ⟨w, hw, hwf⟩ := (filterLengthNeIff e.2).mp hne
    exact ⟨e, he, w, hw, (keepEqFalseIff live s w).mp hwf⟩
  · rintro ⟨e, he, w, hw, hwp⟩
    refine ⟨e, he, ?_⟩
    rw [bne_iff_ne]
    exact (filterLengthNeIff e.2).mpr ⟨w, hw, (keepEqFalseIff live s w).mpr hwp⟩

/-- C7 counterexample: with subscription index `[("t", [7])]` where `7`
is expired and exactly `5` is live, `unsubscribeAll` for subscriber `5`
— which is subscribed to no topic — purges the expired entry and
returns `true`, where the claim requires `false` when no topic had the
given subscriber removed. -/
theorem C7_cex :
    (unsubscribeAll (fun h => h == 5) (some 5) [("t", [7])]).2 = true ∧
    (5 : Handle) ∉ ([7] : Bucket) ∧
    ((fun h => h == 5) : Handle → Bool) 7 = false := by
  refine ⟨?_, by decide, rfl⟩
  rfl

/-- C7 (amended): after `unsubscribeAll(s)` the subscriber `s` is
absent from every topic bucket of the subscription index; along any
later trace of broker operations that contains no `subscribe` of `s`,
`s` stays absent, and no delivery snapshot ever contains `s` — so no
subsequent publish delivers a message to `s`.  `unsubscribeAll` returns
true iff some bucket contained at least one entry that was expired or
equal to `s` (so it also returns true when only expired entries were
purged and `s` was subscribed to nothing), and a null subscriber is
rejected with the state unchanged. -/
theorem C7_unsubscribeAll_amended (live0 : Handle → Bool) (s : Handle)
    (st : BrokerState) (trace : List ((Handle → Bool) × BrokerOp))
    (hop : ∀ pr ∈ trace, ∀ t, pr.2 ≠ BrokerOp.subscribe t (some s)) :
    noHandle s (runTrace trace
      (stepB live0 (BrokerOp.unsubscribeAll (some s)) st)).subscriptions ∧
    (∀ (live : Handle → Bool) (m : MCPMessage),
      s ∉ (deliverMessage live m (runTrace trace
        (stepB live0 (BrokerOp.unsubscribeAll (some s)) st)).subscriptions).2) ∧
    ((unsubscribeAll live0 (some s) st.subscriptions).2 = true ↔
      ∃ e ∈ st.subscriptions, ∃ w ∈ e.2, (live0 w = false ∨ w = s)) ∧
    (∀ subs2 : Registry, unsubscribeAll live0 none subs2 = (subs2, false)) := by
  have h0 : noHandle s
      (stepB live0 (BrokerOp.unsubscribeAll (some s)) st).subscriptions :=
    unsubscribeAll_removes live0 s st.subscriptions
  have h1 := runTrace_noHandle trace _ s h0 hop
  exact ⟨h1, fun live m => (noHandle_deliverMessage s live m _ h1).2,
    unsubscribeAll_true_iff live0 s st.subscriptions, fun subs2 => rfl⟩

theorem C7_unsubscribeAll_witness :
    noHandle 5 (runTrace []
      (stepB (fun _ => true) (BrokerOp.unsubscribeAll (some 5))
        { topicRegistry := [], subscriptions := [("a", [5, 6])],
          messageQueue := [], threadRunning := true })).subscriptions ∧
    (∀ (live : Handle → Bool) (m : MCPMessage),
      (5 : Handle) ∉ (deliverMessage live m (runTrace []
        (stepB (fun _ => true) (BrokerOp.unsubscribeAll (some 5))
          { topicRegistry := [], subscriptions := [("a", [5, 6])],
            messageQueue := [], threadRunning := true })).subscriptions).2) ∧
    ((unsubscribeAll (fun _ => true) (some 5) [("a", [5, 6])]).2 = true ↔
      ∃ e ∈ ([("a", [5, 6])] : Registry), ∃ w ∈ e.2,
        ((fun _ => true) w = false ∨ w = 5)) ∧
    (∀ subs2 : Registry, unsubscribeAll (fun _ => true) none subs2 = (subs2, false)) :=
  C7_unsubscribeAll_amended (fun _ => true) 5
    { topicRegistry := [], subscriptions := [("a", [5, 6])],
      messageQueue := [], threadRunning := true }
    [] (by simp)
